import Mathlib

/-!
LEX redelivery auto-processor (`src/content.js`).

A shallow embedding of the content script and the properties of its
specification.

Modelling conventions.

* JavaScript strings are Lean `String`s, processed through their list of
  characters.  The operations used by the script (`trim`, `toLowerCase`,
  `includes` with an ASCII pattern, `parseInt`) are defined below.
* A JavaScript number is a `JsNumber`: `NaN`, an infinity, or an integer.
  `parseInt` rounds the integer it reads to the nearest double, ties to even,
  and gives an infinity from 2^1024 on (`roundToDouble`).
* The page (DOM) is outside the script: it is an input of every step.
* An `async` function runs atomically between two suspension points (the
  platform is single threaded); a suspended call is a value of type `Task`,
  kept in `State.running` until its delay is over.
* `click()` and `focus()` do not raise.  The one statement of the `try` block
  of `processRow` that can raise is `input.select()`, when the element found
  under `#trackingNumber` has no such method.  A timer callback that raises
  leaves its promise unsettled: this is the run in which the suspended call is
  never resumed.
* Timers are kept with their due time on a millisecond clock; a callback runs
  when its delay is over.
-/

namespace LexRedelivery

/-! ## Strings -/

/-- WhiteSpace and LineTerminator code points, the characters removed by
`String.prototype.trim` and skipped by `parseInt`. -/
def isJsWhiteSpace (c : Char) : Bool :=
  let n := c.toNat
  n == 9 || n == 10 || n == 11 || n == 12 || n == 13 || n == 32 || n == 160 ||
  n == 5760 || (8192 ≤ n && n ≤ 8202) || n == 8232 || n == 8233 || n == 8239 ||
  n == 8287 || n == 12288 || n == 65279

/-- Characters left after removing leading white space. -/
def trimStartChars (cs : List Char) : List Char :=
  cs.dropWhile isJsWhiteSpace

/-- Characters left after removing leading and trailing white space. -/
def trimChars (cs : List Char) : List Char :=
  ((trimStartChars cs).reverse.dropWhile isJsWhiteSpace).reverse

/-- `s.trim()`. -/
def trim (s : String) : String :=
  ⟨trimChars s.data⟩

/-- Lower-case mapping of one character.  Only `A`..`Z` are mapped; the
non-ASCII letters that JavaScript also maps never produce a letter of
"refuse" or "cancelled". -/
def lowerChar (c : Char) : Char :=
  if 65 ≤ c.toNat ∧ c.toNat ≤ 90 then Char.ofNat (c.toNat + 32) else c

/-- `s.toLowerCase()`. -/
def toLowerCase (s : String) : String :=
  ⟨s.data.map lowerChar⟩

/-- Does `pat` occur at the very start of `cs`? -/
def startsWithChars : List Char → List Char → Bool
  | [], _ => true
  | _ :: _, [] => false
  | p :: ps, c :: cs => p == c && startsWithChars ps cs

/-- Does `pat` occur somewhere in `cs`?  Left-to-right search. -/
def includesChars (pat : List Char) : List Char → Bool
  | [] => startsWithChars pat []
  | c :: cs => startsWithChars pat (c :: cs) || includesChars pat cs

/-- `s.includes(pat)`. -/
def includes (s pat : String) : Bool :=
  includesChars pat.data s.data

/-- Substring relation used to state what `includes` computes. -/
def HasSubstring (s pat : String) : Prop :=
  ∃ before after : List Char, s.data = before ++ pat.data ++ after

/-! ## `parseInt` -/

/-- Value of a character read as a digit (`0`-`9`, `a`-`z`, `A`-`Z`). -/
def digitValue (c : Char) : Option Nat :=
  let n := c.toNat
  if 48 ≤ n ∧ n ≤ 57 then some (n - 48)
  else if 97 ≤ n ∧ n ≤ 122 then some (n - 97 + 10)
  else if 65 ≤ n ∧ n ≤ 90 then some (n - 65 + 10)
  else none

/-- Is `c` a digit of radix `radix`? -/
def isRadixDigit (radix : Nat) (c : Char) : Bool :=
  match digitValue c with
  | some d => decide (d < radix)
  | none => false

/-- Integer denoted by a list of radix digits. -/
def digitsValue (radix : Nat) (cs : List Char) : Nat :=
  cs.foldl (fun acc c => acc * radix + (digitValue c).getD 0) 0

/-- Number values of the script: `NaN`, the two infinities, and the integers
(the doubles that `parseInt` returns are integers or infinite). -/
inductive JsNumber
  | nan
  | infinity (negative : Bool)
  | finite (value : Int)
deriving DecidableEq

instance : Coe Int JsNumber := ⟨JsNumber.finite⟩

instance (n : Nat) : OfNat JsNumber n := ⟨JsNumber.finite n⟩

/-- The comparison `x >= bound` for an integer `bound`; false for `NaN`. -/
def JsNumber.ge (x : JsNumber) (bound : Int) : Bool :=
  match x with
  | JsNumber.nan => false
  | JsNumber.infinity negative => !negative
  | JsNumber.finite value => decide (bound ≤ value)

/-- Number of low bits that do not fit in the 53-bit significand of a double:
the number of halvings that bring `m` below 2^53.  The first argument bounds
the number of steps. -/
def excessBits : Nat → Nat → Nat
  | 0, _ => 0
  | fuel + 1, m => if m < 2 ^ 53 then 0 else excessBits fuel (m / 2) + 1

/-- The significand of the double nearest to `n`, ties to the even
significand.  With `e` excess bits, `n = q * 2^e + r`: `q` is rounded up when
`r` is more than half of `2^e`, or exactly half with `q` odd. -/
def roundedSignificand (n : Nat) : Nat :=
  let e := excessBits n n
  let q := n >>> e
  let r := n - (q <<< e)
  if 1 <<< e < 2 * r ∨ (2 * r = 1 <<< e ∧ q % 2 = 1) then q + 1 else q

/-- The bound 2^1024: a value rounds to an infinity from here on. -/
def doubleBound : Nat :=
  1 <<< 1024

/-- The double nearest to the natural number `n`; `none` when the result is
2^1024 or more (an infinity). -/
def roundToDouble (n : Nat) : Option Nat :=
  let v := roundedSignificand n <<< excessBits n n
  if v < doubleBound then some v else none

/-- The Number value of `sign * n`.  Both zeros are `0`. -/
def toNumber (negative : Bool) (n : Nat) : JsNumber :=
  match roundToDouble n with
  | some v => JsNumber.finite (if negative then -(v : Int) else (v : Int))
  | none => JsNumber.infinity negative

/-- The digits of `parseInt`: the longest run of radix digits at the start of
`cs`, read as an integer with the given sign and rounded to a double; `NaN`
when there is no digit.  (The language also lets an engine read digits after
the 20th as zeros in radix 10; the engines round the exact value.) -/
def parseDigits (negative : Bool) (radix : Nat) (cs : List Char) : JsNumber :=
  let z := cs.takeWhile (isRadixDigit radix)
  if z.isEmpty then JsNumber.nan
  else toNumber negative (digitsValue radix z)

/-- The part of `parseInt` after the sign: radix 16 after `0x` or `0X`, radix
10 otherwise. -/
def parseUnsigned (negative : Bool) (cs : List Char) : JsNumber :=
  match cs with
  | '0' :: 'x' :: rest => parseDigits negative 16 rest
  | '0' :: 'X' :: rest => parseDigits negative 16 rest
  | _ => parseDigits negative 10 cs

/-- `parseInt(s)` without a radix argument: skip leading white space, read one
sign, then the digits. -/
def parseInt (s : String) : JsNumber :=
  match trimStartChars s.data with
  | '-' :: rest => parseUnsigned true rest
  | '+' :: rest => parseUnsigned false rest
  | cs => parseUnsigned false cs

/-- `x || 0` for a number `x`: `NaN` and zero are falsy. -/
def orZero (x : JsNumber) : JsNumber :=
  match x with
  | JsNumber.nan => JsNumber.finite 0
  | JsNumber.infinity negative => JsNumber.infinity negative
  | JsNumber.finite value => if value = 0 then JsNumber.finite 0 else JsNumber.finite value

/-! ## Eligibility -/

/-- `shouldTriggerNoAction(reason, attempts)`. -/
def shouldTriggerNoAction (reason : String) (attempts : JsNumber) : Bool :=
  let reasonLower := toLowerCase reason
  if includes reasonLower "refuse" || includes reasonLower "cancelled" then true
  else if attempts.ge 2 then true
  else false

/-! ## The page -/

/-- A `button` element. -/
structure Button where
  textContent : String
deriving DecidableEq

/-- A `td` element: its text and the buttons below it. -/
structure Cell where
  textContent : String
  buttons : List Button
deriving DecidableEq

/-- A `tr.lazada-logistics-table-row` element. -/
structure Row where
  cells : List Cell
deriving DecidableEq

/-- A `.lazada-logistics-radio-wrapper` element; `hasRadioInput` tells whether
`querySelector('input[type="radio"]')` finds something below it. -/
structure RadioWrapper where
  hasRadioInput : Bool
deriving DecidableEq

/-- What the script can see of the page when one of its callbacks runs. -/
structure Page where
  /-- Rows of every `.lazada-logistics-table-body tbody`, in document order. -/
  tables : List (List Row)
  /-- Radio wrappers below `#dialogReattempt`; `none` when it is absent. -/
  dialogReattempt : Option (List RadioWrapper)
  /-- `none`: no `.lazada-logistics-dialog-footer`; `some b`: the footer is
  there and `b` tells whether it holds a `.lazada-logistics-btn-primary`. -/
  dialogFooter : Option Bool
  /-- `none`: no `#trackingNumber`; `some b`: the element is there and `b`
  tells whether it has a `select` method (inputs and text areas do). -/
  trackingInput : Option Bool
deriving DecidableEq

/-! ## Row extraction -/

/-- Record built by `extractRowData`. -/
structure RowData where
  trackingNumber : String
  reason : String
  attempts : JsNumber
  editButton : Option Button
  row : Row
deriving DecidableEq

/-- The `buttons.forEach` loop of `extractRowData`: every button whose trimmed
text includes "Edit" overwrites `editButton`. -/
def findEditButton (buttons : List Button) : Option Button :=
  buttons.foldl
    (fun editButton button =>
      if includes (trim button.textContent) "Edit" then some button else editButton)
    none

/-- `extractRowData(row)`; `none` is `null`. -/
def extractRowData (row : Row) : Option RowData :=
  let cells := row.cells
  if cells.length < 11 then none
  else
    match cells[0]?, cells[5]?, cells[6]? with
    | some c0, some c5, some c6 =>
      let trackingNumber := trim c0.textContent
      let reason := trim c6.textContent
      let attemptsText := trim c5.textContent
      let attempts := orZero (parseInt attemptsText)
      let lastCellIndex := cells.length - 1
      let editButton :=
        match cells[lastCellIndex]? with
        | some actionCell => findEditButton actionCell.buttons
        | none => none
      some ⟨trackingNumber, reason, attempts, editButton, row⟩
    | _, _, _ => none

/-! ## Process-wide state -/

/-- `set.has(x)` for a `Set` of strings kept as a list. -/
def setHas (s : List String) (x : String) : Bool :=
  s.contains x

/-- `set.add(x)`. -/
def setAdd (s : List String) (x : String) : List String :=
  if s.contains x then s else s ++ [x]

/-- `set.delete(x)`. -/
def setDelete (s : List String) (x : String) : List String :=
  s.filter (fun y => y != x)

/-- Suspension points of `processRow`. -/
inductive Stage
  /-- `await new Promise(resolve => setTimeout(resolve, 500))`. -/
  | modalDelay
  /-- The 500 ms timer inside `clickNoRadioButton`. -/
  | noRadioDelay
  /-- The 300 ms timer inside `clickSubmitButton`. -/
  | submitDelay
  /-- `await new Promise(resolve => setTimeout(resolve, 1500))`. -/
  | refocusDelay
deriving DecidableEq

/-- A call of `processRow` suspended at one of its delays. -/
structure Task where
  rowData : RowData
  stage : Stage
deriving DecidableEq

/-- A callback registered with `setTimeout` by `checkForNewRows`. -/
structure Timer where
  handle : Nat
  due : Nat
deriving DecidableEq

/-- The variables of the script together with what the platform holds for it:
the pending debounce timers and the suspended `processRow` calls. -/
structure State where
  processedRows : List String
  processingRows : List String
  isProcessing : Bool
  checkTimeout : Option Nat
  timers : List Timer
  nextHandle : Nat
  running : List Task
deriving DecidableEq

/-- State when the script has been loaded. -/
def State.init : State :=
  ⟨[], [], false, none, [], 1, []⟩

/-- Things the script does to the page, and the calls the claims speak of. -/
inductive Effect
  /-- `processRow(rowData)` is called by the scan. -/
  | handed (rowData : RowData)
  /-- `rowData.editButton.click()`. -/
  | clickEdit (trackingNumber : String)
  /-- `noRadioInput.click()`. -/
  | clickNoInput
  /-- `noRadioWrapper.click()`. -/
  | clickNoWrapper
  /-- `submitButton.click()`. -/
  | clickSubmit
  /-- `input.focus()`. -/
  | focusInput
  /-- `input.select()`. -/
  | selectInput
deriving DecidableEq

/-! ## The Processor -/

/-- `processRow(rowData)` from the call to its first suspension point (or to
its return). -/
def processRow (s : State) (rowData : RowData) : State × List Effect :=
  if s.isProcessing then (s, [])
  else
    match rowData.editButton with
    | some _ =>
      ({ s with isProcessing := true, running := s.running ++ [⟨rowData, Stage.modalDelay⟩] },
        [Effect.clickEdit rowData.trackingNumber])
    | none => ({ s with isProcessing := false }, [])

/-- The timer callback of `clickNoRadioButton`: the effects and the value the
promise resolves to. -/
def clickNoRadioButton (page : Page) : Bool × List Effect :=
  match page.dialogReattempt with
  | none => (false, [])
  | some radioWrappers =>
    if radioWrappers.length ≥ 2 then
      match radioWrappers[1]? with
      | some noRadioWrapper =>
        if noRadioWrapper.hasRadioInput then (true, [Effect.clickNoInput, Effect.clickNoWrapper])
        else (false, [])
      | none => (false, [])
    else (false, [])

/-- The timer callback of `clickSubmitButton`. -/
def clickSubmitButton (page : Page) : Bool × List Effect :=
  match page.dialogFooter with
  | none => (false, [])
  | some hasSubmit => if hasSubmit then (true, [Effect.clickSubmit]) else (false, [])

/-- One suspended `processRow` call runs from its delay to the next one.  The
result is the new script state, the call if it is suspended again (`none` when
it has returned), and the effects.  The task itself is not in `s.running`
while it runs. -/
def resumeTask (s : State) (task : Task) (page : Page) : State × Option Task × List Effect :=
  let rowData := task.rowData
  match task.stage with
  | Stage.modalDelay => (s, some ⟨rowData, Stage.noRadioDelay⟩, [])
  | Stage.noRadioDelay =>
    let r := clickNoRadioButton page
    if r.1 then (s, some ⟨rowData, Stage.submitDelay⟩, r.2)
    else ({ s with isProcessing := false }, none, r.2)
  | Stage.submitDelay =>
    let r := clickSubmitButton page
    let s1 := { s with processingRows := setDelete s.processingRows rowData.trackingNumber }
    let s2 := { s1 with processedRows := setAdd s1.processedRows rowData.trackingNumber }
    (s2, some ⟨rowData, Stage.refocusDelay⟩, r.2)
  | Stage.refocusDelay =>
    match page.trackingInput with
    | none => ({ s with isProcessing := false }, none, [])
    | some canSelect =>
      if canSelect then ({ s with isProcessing := false }, none, [Effect.focusInput, Effect.selectInput])
      else
        -- `input.select()` raises: the `catch` block, then `finally`
        ({ s with processingRows := setDelete s.processingRows rowData.trackingNumber,
                  isProcessing := false }, none, [Effect.focusInput])

/-! ## The Scanner -/

/-- Body of the `rows.forEach` callback of `performRowCheck`.  A `return`
inside it ends the callback for this row only. -/
def checkRow (acc : State × List Effect) (row : Row) : State × List Effect :=
  match extractRowData row with
  | none => acc
  | some rowData =>
    if setHas acc.1.processedRows rowData.trackingNumber then acc
    else if setHas acc.1.processingRows rowData.trackingNumber then acc
    else if shouldTriggerNoAction rowData.reason rowData.attempts then
      match rowData.editButton with
      | some _ =>
        let s1 := { acc.1 with processingRows := setAdd acc.1.processingRows rowData.trackingNumber }
        let r := processRow s1 rowData
        (r.1, acc.2 ++ [Effect.handed rowData] ++ r.2)
      | none => acc
    else acc

/-- `performRowCheck()` on the tables that are on the page. -/
def performRowCheck (s : State) (tables : List (List Row)) : State × List Effect :=
  if s.isProcessing then (s, [])
  else tables.foldl (fun acc rows => rows.foldl checkRow acc) (s, [])

/-! ## The Scan Trigger -/

/-- `clearTimeout(handle)`. -/
def clearTimeout (timers : List Timer) (handle : Nat) : List Timer :=
  timers.filter (fun t => t.handle != handle)

/-- `checkForNewRows()` called at time `now` (milliseconds). -/
def checkForNewRows (now : Nat) (s : State) : State :=
  let timers :=
    match s.checkTimeout with
    | some handle => clearTimeout s.timers handle
    | none => s.timers
  { s with
    checkTimeout := some s.nextHandle,
    timers := timers ++ [⟨s.nextHandle, now + 100⟩],
    nextHandle := s.nextHandle + 1 }

/-- The callback given to `setTimeout` by `checkForNewRows`. -/
def scanCallback (s : State) (tables : List (List Row)) : State × List Effect :=
  let r := performRowCheck s tables
  ({ r.1 with checkTimeout := none }, r.2)

/-! ## The event loop -/

/-- What the platform can run next. -/
inductive Event
  /-- One of the trigger sources calls `checkForNewRows()` at time `now`. -/
  | checkForNewRows (now : Nat)
  /-- The debounce timer with this handle runs its callback. -/
  | timerFires (handle : Nat) (page : Page)
  /-- The delay of the suspended `processRow` call at this index is over. -/
  | resume (index : Nat) (page : Page)
deriving DecidableEq

/-- One turn of the event loop. -/
def step (s : State) : Event → State × List Effect
  | Event.checkForNewRows now => (checkForNewRows now s, [])
  | Event.timerFires handle page =>
    if s.timers.any (fun t => t.handle == handle) then
      scanCallback { s with timers := clearTimeout s.timers handle } page.tables
    else (s, [])
  | Event.resume index page =>
    match s.running[index]? with
    | none => (s, [])
    | some task =>
      let r := resumeTask { s with running := s.running.eraseIdx index } task page
      match r.2.1 with
      | some task1 => ({ r.1 with running := r.1.running ++ [task1] }, r.2.2)
      | none => (r.1, r.2.2)

/-- Any number of turns; the effects are collected in order. -/
def run (s : State) : List Event → State × List Effect
  | [] => (s, [])
  | e :: es =>
    let r := step s e
    let r1 := run r.1 es
    (r1.1, r.2 ++ r1.2)

/-- Number of `processRow` calls that have started and not returned. -/
def activeSequences (s : State) : Nat :=
  s.running.length

/-! ### Timers on a clock

The platform runs a timer callback when its delay is over.  `runDueTimers`
lets the clock reach `now`; it reports when `performRowCheck` ran. -/

/-- Every pending debounce timer due at `now` or before runs, oldest first. -/
def runDueTimers (page : Page) (now : Nat) (s : State) : State × List Nat :=
  (s.timers.filter (fun t => decide (t.due ≤ now))).foldl
    (fun acc t => ((step acc.1 (Event.timerFires t.handle page)).1, acc.2 ++ [t.due]))
    (s, [])

/-- Calls of `checkForNewRows` at the times `calls`, then the clock runs on to
`horizon`.  The second component lists the times at which `performRowCheck`
ran. -/
def burst (page : Page) (horizon : Nat) : List Nat → State → State × List Nat
  | [], s => runDueTimers page horizon s
  | t :: ts, s =>
    let r := runDueTimers page t s
    let r1 := burst page horizon ts (checkForNewRows t r.1)
    (r1.1, r.2 ++ r1.2)

/-- Each call comes after the previous one and less than 100 ms after it. -/
def WithinWindow : List Nat → Prop
  | [] => True
  | [_] => True
  | a :: b :: rest => a ≤ b ∧ b < a + 100 ∧ WithinWindow (b :: rest)

/-! ## Sample pages -/

/-- A cell holding only text. -/
def textCell (text : String) : Cell :=
  ⟨text, []⟩

/-- An eleven-cell row: tracking number, attempts, reason, and the buttons of
the last cell. -/
def sampleRow (tracking attempts reason : String) (buttons : List Button) : Row :=
  ⟨[textCell tracking, textCell "", textCell "", textCell "", textCell "",
    textCell attempts, textCell reason, textCell "", textCell "", textCell "",
    ⟨"", buttons⟩]⟩

/-- Row A of the end-to-end scenario. -/
def rowA : Row :=
  sampleRow "A" "1" "Customer cancelled orders before delivery" [⟨"Edit"⟩]

/-- Row B of the end-to-end scenario. -/
def rowB : Row :=
  sampleRow "B" "3" "In transit" [⟨"Edit"⟩]

/-- A page showing the given tables and a complete dialog. -/
def pageWith (tables : List (List Row)) : Page :=
  ⟨tables, some [⟨true⟩, ⟨true⟩], some true, some true⟩

/-- A page showing the given tables and no dialog. -/
def pageNoDialog (tables : List (List Row)) : Page :=
  ⟨tables, none, none, some true⟩

/-- The table of the end-to-end scenario, with a complete dialog. -/
def twoRowPage : Page :=
  pageWith [[rowA, rowB]]

/-- The scenario up to the end of A's sequence: a scan request, the scan, and
the four delays of `processRow`. -/
def scenarioEvents : List Event :=
  [Event.checkForNewRows 0, Event.timerFires 1 twoRowPage,
    Event.resume 0 twoRowPage, Event.resume 0 twoRowPage,
    Event.resume 0 twoRowPage, Event.resume 0 twoRowPage]

/-- The record `extractRowData` builds for row A. -/
def recordA : RowData :=
  ⟨"A", "Customer cancelled orders before delivery", 1, some ⟨"Edit"⟩, rowA⟩

/-- The record `extractRowData` builds for row B. -/
def recordB : RowData :=
  ⟨"B", "In transit", 3, some ⟨"Edit"⟩, rowB⟩

/-- The state when A's sequence has finished. -/
def afterA : State :=
  (run State.init scenarioEvents).1

/-- A row that is eligible by its attempts and has no button. -/
def rowNoButton : Row :=
  sampleRow "X" "2" "In transit" []

/-- The record `extractRowData` builds for `rowNoButton`. -/
def recordNoButton : RowData :=
  ⟨"X", "In transit", 2, none, rowNoButton⟩

/-- A page whose dialog has a single option. -/
def pageOneOption (tables : List (List Row)) : Page :=
  ⟨tables, some [⟨true⟩], some true, some true⟩

/-- A page whose second option has no radio input. -/
def pageNoRadioInput (tables : List (List Row)) : Page :=
  ⟨tables, some [⟨true⟩, ⟨false⟩], some true, some true⟩

/-- A row that is eligible by its reason. -/
def rowT1 : Row :=
  sampleRow "T1" "0" "Customer refuses delivery" [⟨"Edit"⟩]

/-- The record `extractRowData` builds for `rowT1`. -/
def recordT1 : RowData :=
  ⟨"T1", "Customer refuses delivery", 0, some ⟨"Edit"⟩, rowT1⟩

/-- The scan has just marked `T1` in flight and is about to call `processRow`. -/
def markedT1 : State :=
  { State.init with processingRows := ["T1"] }

/-- A scan request, the scan of a page showing `rowT1`, and the first two
delays of `processRow`, the dialog never appearing. -/
def noDialogEvents : List Event :=
  [Event.checkForNewRows 0, Event.timerFires 1 (pageNoDialog [[rowT1]]),
    Event.resume 0 (pageNoDialog [[rowT1]]), Event.resume 0 (pageNoDialog [[rowT1]])]

/-- `processRow(record)` is called in state `s` and runs until it returns or
the pages are used up, one page per delay and nothing else in between. -/
def processRowOn (s : State) (record : RowData) (pages : List Page) : State × List Effect :=
  let r := processRow s record
  let r1 := run r.1 (pages.map (fun page => Event.resume 0 page))
  (r1.1, r.2 ++ r1.2)

/-- A suspended call is resumed on the given pages, one per delay, until it
returns (`none`) or the pages are used up. -/
def resumeAll (s : State) (task : Task) : List Page → State × Option Task
  | [] => (s, some task)
  | page :: pages =>
    match (resumeTask s task page).2.1 with
    | some task1 => resumeAll (resumeTask s task page).1 task1 pages
    | none => ((resumeTask s task page).1, none)

/-! ## Words of the specification -/

/-- The text without one leading sign. -/
def withoutSign (cs : List Char) : List Char :=
  match cs with
  | '-' :: rest => rest
  | '+' :: rest => rest
  | _ => cs

/-- The text is empty or, after an optional sign, does not begin with a
decimal digit. -/
def NoLeadingDigit (s : String) : Prop :=
  ∀ c rest, withoutSign s.data = c :: rest → isRadixDigit 10 c = false

/-- An integer that a double holds exactly: a significand of at most 53 bits
times a power of two, below 2^1024 in size. -/
def IsDoubleInteger (v : Int) : Prop :=
  ∃ m e : Nat, m < 2 ^ 53 ∧ v.natAbs = m * 2 ^ e ∧ v.natAbs < doubleBound

/-- The number is not negative: `+Infinity` or an integer `>= 0`. -/
def JsNumber.NonNegative (x : JsNumber) : Prop :=
  x = JsNumber.infinity false ∨ ∃ v : Int, x = JsNumber.finite v ∧ 0 ≤ v

/-- The decimal text of 10^309: a one and 309 zeros. -/
def hugeText : String :=
  ⟨'1' :: List.replicate 309 '0'⟩

/-- All rows of the page in document order. -/
def allRows (tables : List (List Row)) : List Row :=
  tables.flatten

/-- The rows of one scan pass, starting from an accumulated result. -/
def scanRows (acc : State × List Effect) (rows : List Row) : State × List Effect :=
  rows.foldl checkRow acc

/-- The flag and the list of suspended calls agree. -/
def BusyMatches (s : State) : Prop :=
  activeSequences s = if s.isProcessing then 1 else 0

/-- No identity is both completed and in flight. -/
def LedgerDisjoint (s : State) : Prop :=
  ∀ x, x ∈ s.processedRows → x ∉ s.processingRows

/-- At most one debounce timer is pending, it is the one `checkTimeout` names,
and its handle is older than the next one to be given out. -/
def TimerMatches (s : State) : Prop :=
  (∀ t, t ∈ s.timers → t.handle < s.nextHandle) ∧
  (s.timers = [] ∨ ∃ h due, s.checkTimeout = some h ∧ s.timers = [⟨h, due⟩])

/-- What a scan pass started from `acc0` has done when it has reached `acc`. -/
structure ScanFacts (rows : List Row) (acc0 acc : State × List Effect) : Prop where
  processed : acc.1.processedRows = acc0.1.processedRows
  timers : acc.1.timers = acc0.1.timers
  checkTimeout : acc.1.checkTimeout = acc0.1.checkTimeout
  nextHandle : acc.1.nextHandle = acc0.1.nextHandle
  processingMono : ∀ x, x ∈ acc0.1.processingRows → x ∈ acc.1.processingRows
  effectsExtend : acc0.2 <+: acc.2
  handed : ∀ rd, Effect.handed rd ∈ acc.2 → Effect.handed rd ∈ acc0.2 ∨
    (rd.row ∈ rows ∧ extractRowData rd.row = some rd ∧
      rd.trackingNumber ∉ acc0.1.processedRows ∧ rd.trackingNumber ∉ acc0.1.processingRows ∧
      shouldTriggerNoAction rd.reason rd.attempts = true ∧ rd.editButton ≠ none ∧
      rd.trackingNumber ∈ acc.1.processingRows)
  marked : ∀ x, x ∈ acc.1.processingRows → x ∈ acc0.1.processingRows ∨
    ∃ rd, Effect.handed rd ∈ acc.2 ∧ rd.trackingNumber = x

/-! ## Lemmas on strings -/

theorem startsWithChars_iff (pat cs : List Char) :
    startsWithChars pat cs = true ↔ ∃ rest, cs = pat ++ rest := by
  induction pat generalizing cs with
  | nil => simp [startsWithChars]
  | cons p ps ih =>
    cases cs with
    | nil => simp [startsWithChars]
    | cons c cs =>
      simp only [startsWithChars, Bool.and_eq_true, beq_iff_eq, ih, List.cons_append,
        List.cons.injEq]
      constructor
      · rintro ⟨rfl, rest, rfl⟩
        exact ⟨rest, rfl, rfl⟩
      · rintro ⟨rest, rfl, rfl⟩
        exact ⟨rfl, rest, rfl⟩

theorem includesChars_iff (pat cs : List Char) :
    includesChars pat cs = true ↔ ∃ before after, cs = before ++ pat ++ after := by
  induction cs with
  | nil =>
    simp only [includesChars, startsWithChars_iff]
    constructor
    · rintro ⟨rest, h⟩
      exact ⟨[], rest, by simpa using h⟩
    · rintro ⟨before, after, h⟩
      have h1 : before ++ pat ++ after = [] := h.symm
      simp only [List.append_eq_nil] at h1
      exact ⟨[], by simp [h1.1.2]⟩
  | cons c cs ih =>
    simp only [includesChars, Bool.or_eq_true, startsWithChars_iff, ih]
    constructor
    · rintro (⟨rest, h⟩ | ⟨before, after, h⟩)
      · exact ⟨[], rest, by simpa using h⟩
      · exact ⟨c :: before, after, by simp [h]⟩
    · rintro ⟨before, after, h⟩
      cases before with
      | nil => exact Or.inl ⟨after, by simpa using h⟩
      | cons b bs =>
        simp only [List.cons_append, List.cons.injEq] at h
        exact Or.inr ⟨bs, after, by simpa using h.2⟩

theorem includes_iff (s pat : String) : includes s pat = true ↔ HasSubstring s pat := by
  unfold includes HasSubstring
  exact includesChars_iff pat.data s.data

theorem trimStartChars_trimChars (cs : List Char) :
    trimStartChars (trimChars cs) = trimChars cs := by
  unfold trimChars trimStartChars
  have hpre : ((cs.dropWhile isJsWhiteSpace).reverse.dropWhile isJsWhiteSpace).reverse
      <+: cs.dropWhile isJsWhiteSpace :=
    List.rdropWhile_prefix isJsWhiteSpace (cs.dropWhile isJsWhiteSpace)
  generalize ((cs.dropWhile isJsWhiteSpace).reverse.dropWhile isJsWhiteSpace).reverse = r at hpre
  cases r with
  | nil => rfl
  | cons x xs =>
    obtain ⟨t, ht⟩ := hpre
    have hne : cs.dropWhile isJsWhiteSpace ≠ [] := by
      rw [← ht]; simp
    have hx := List.head_dropWhile_not isJsWhiteSpace cs hne
    have hhead : (cs.dropWhile isJsWhiteSpace).head hne = x := by
      simp [← ht]
    rw [hhead] at hx
    exact List.dropWhile_cons_of_neg (by simp [hx])

/-! ## Lemmas on `parseInt` -/

theorem excessBits_spec (fuel m : Nat) (h : m ≤ fuel) :
    m / 2 ^ excessBits fuel m < 2 ^ 53 := by
  induction fuel generalizing m with
  | zero =>
    have hm : m = 0 := by omega
    subst hm
    simp [excessBits]
  | succ fuel ih =>
    unfold excessBits
    split
    · rename_i hlt
      simpa using hlt
    · have hhalf : m / 2 ≤ fuel := by omega
      have := ih (m / 2) hhalf
      rw [Nat.pow_succ, Nat.mul_comm, ← Nat.div_div_eq_div_mul]
      exact this

theorem roundedSignificand_le (n : Nat) : roundedSignificand n ≤ 2 ^ 53 := by
  have hq := excessBits_spec n n (le_refl n)
  unfold roundedSignificand
  simp only [Nat.shiftRight_eq_div_pow]
  split <;> omega

theorem roundToDouble_isDouble (n v : Nat) (h : roundToDouble n = some v) :
    IsDoubleInteger (v : Int) ∧ IsDoubleInteger (-(v : Int)) := by
  have key : ∃ m e : Nat, m < 2 ^ 53 ∧ v = m * 2 ^ e ∧ v < doubleBound := by
    unfold roundToDouble at h
    simp only at h
    split at h
    · rename_i hlt
      injection h with h
      rw [h] at hlt
      rw [Nat.shiftLeft_eq] at h
      have hle := roundedSignificand_le n
      by_cases htop : roundedSignificand n < 2 ^ 53
      · exact ⟨_, _, htop, h.symm, hlt⟩
      · have heq : roundedSignificand n = 2 ^ 53 := by omega
        refine ⟨1, excessBits n n + 53, by norm_num, ?_, hlt⟩
        rw [← h, heq, Nat.one_mul, Nat.pow_add, Nat.mul_comm]
    · exact absurd h (by simp)
  obtain ⟨m, e, hm, hv, hlt⟩ := key
  refine ⟨⟨m, e, hm, ?_, ?_⟩, ⟨m, e, hm, ?_, ?_⟩⟩
  · rw [Int.natAbs_ofNat]; exact hv
  · rw [Int.natAbs_ofNat]; exact hlt
  · rw [Int.natAbs_neg, Int.natAbs_ofNat]; exact hv
  · rw [Int.natAbs_neg, Int.natAbs_ofNat]; exact hlt

/-- The values `toNumber` can take. -/
theorem toNumber_cases (negative : Bool) (n : Nat) :
    toNumber negative n = JsNumber.infinity negative ∨
    ∃ v : Nat, roundToDouble n = some v ∧
      toNumber negative n = JsNumber.finite (if negative then -(v : Int) else (v : Int)) := by
  unfold toNumber
  cases h : roundToDouble n with
  | none => exact Or.inl rfl
  | some v => exact Or.inr ⟨v, rfl, rfl⟩

theorem parseDigits_cases (negative : Bool) (radix : Nat) (cs : List Char) :
    parseDigits negative radix cs = JsNumber.nan ∨
    ∃ n, parseDigits negative radix cs = toNumber negative n := by
  unfold parseDigits
  simp only
  split
  · exact Or.inl rfl
  · exact Or.inr ⟨_, rfl⟩

theorem parseUnsigned_cases (negative : Bool) (cs : List Char) :
    parseUnsigned negative cs = JsNumber.nan ∨
    ∃ n, parseUnsigned negative cs = toNumber negative n := by
  unfold parseUnsigned
  split <;> exact parseDigits_cases _ _ _

/-- `parseInt` gives `NaN` or the rounded value of a natural number with a
sign, and the sign is negative only after a leading `-`. -/
theorem parseInt_cases (s : String) :
    parseInt s = JsNumber.nan ∨
    ∃ negative n, parseInt s = toNumber negative n ∧
      (negative = true → startsWithChars [ '-' ] (trimStartChars s.data) = true) := by
  unfold parseInt
  split
  · rename_i rest heq
    rcases parseUnsigned_cases true rest with h | ⟨n, h⟩
    · exact Or.inl h
    · exact Or.inr ⟨true, n, h, fun _ => by rw [heq]; simp [startsWithChars]⟩
  · rename_i rest heq
    rcases parseUnsigned_cases false rest with h | ⟨n, h⟩
    · exact Or.inl h
    · exact Or.inr ⟨false, n, h, fun hf => absurd hf (by simp)⟩
  · rcases parseUnsigned_cases false (trimStartChars s.data) with h | ⟨n, h⟩
    · exact Or.inl h
    · exact Or.inr ⟨false, n, h, fun hf => absurd hf (by simp)⟩

theorem orZero_ne_nan (x : JsNumber) : orZero x ≠ JsNumber.nan := by
  unfold orZero
  cases x with
  | nan => exact fun h => by cases h
  | infinity negative => exact fun h => by cases h
  | finite value =>
    simp only
    split
    · exact fun h => by cases h
    · exact fun h => by cases h

theorem orZero_parseInt_isDouble (s : String) (v : Int)
    (h : orZero (parseInt s) = JsNumber.finite v) : IsDoubleInteger v := by
  have hzero : IsDoubleInteger 0 := ⟨0, 0, by norm_num, by simp, by decide⟩
  rcases parseInt_cases s with hn | ⟨negative, n, hp, -⟩
  · rw [hn] at h
    rw [← JsNumber.finite.inj h]; exact hzero
  · rw [hp] at h
    rcases toNumber_cases negative n with hinf | ⟨w, hw, hfin⟩
    · rw [hinf] at h
      simp only [orZero] at h
      exact absurd h (by simp)
    · rw [hfin] at h
      simp only [orZero] at h
      have hd := roundToDouble_isDouble n w hw
      by_cases hz : (if negative = true then -(w : Int) else (w : Int)) = 0
      · rw [if_pos hz] at h
        rw [← JsNumber.finite.inj h]; exact hzero
      · rw [if_neg hz] at h
        rw [← JsNumber.finite.inj h]
        cases negative
        · exact hd.1
        · exact hd.2

theorem orZero_parseInt_nonneg (s : String)
    (hminus : startsWithChars [ '-' ] (trimStartChars s.data) = false) :
    (orZero (parseInt s)).NonNegative := by
  rcases parseInt_cases s with hn | ⟨negative, n, hp, hneg⟩
  · rw [hn]
    exact Or.inr ⟨0, rfl, le_refl 0⟩
  · have hfalse : negative = false := by
      cases negative with
      | false => rfl
      | true => rw [hneg rfl] at hminus; exact absurd hminus (by simp)
    subst hfalse
    rw [hp]
    rcases toNumber_cases false n with hinf | ⟨w, -, hfin⟩
    · rw [hinf]
      exact Or.inl rfl
    · rw [hfin]
      simp only [orZero, Bool.false_eq_true, if_false]
      split
      · exact Or.inr ⟨0, rfl, le_refl 0⟩
      · exact Or.inr ⟨w, rfl, Int.ofNat_nonneg w⟩

theorem parseDigits_nan_of_not_digit (negative : Bool) (radix : Nat) (cs : List Char)
    (h : ∀ c rest, cs = c :: rest → isRadixDigit radix c = false) :
    parseDigits negative radix cs = JsNumber.nan := by
  unfold parseDigits
  cases cs with
  | nil => simp
  | cons c rest => simp [List.takeWhile_cons, h c rest rfl]

theorem parseUnsigned_nan_of_not_digit (negative : Bool) (cs : List Char)
    (h : ∀ c rest, cs = c :: rest → isRadixDigit 10 c = false) :
    parseUnsigned negative cs = JsNumber.nan := by
  unfold parseUnsigned
  split
  · rename_i rest
    exact absurd (h '0' _ rfl) (by decide)
  · rename_i rest
    exact absurd (h '0' _ rfl) (by decide)
  · exact parseDigits_nan_of_not_digit negative 10 cs h

theorem parseInt_nan_of_noLeadingDigit (s : String)
    (h : ∀ c rest, withoutSign (trimStartChars s.data) = c :: rest → isRadixDigit 10 c = false) :
    parseInt s = JsNumber.nan := by
  unfold parseInt
  split
  · rename_i rest heq
    rw [heq] at h
    exact parseUnsigned_nan_of_not_digit true rest (by simpa [withoutSign] using h)
  · rename_i rest heq
    rw [heq] at h
    exact parseUnsigned_nan_of_not_digit false rest (by simpa [withoutSign] using h)
  · rename_i cs hm hp
    apply parseUnsigned_nan_of_not_digit false
    intro c rest hc
    apply h c rest
    rw [← hc]
    unfold withoutSign
    split
    · rename_i r1 heq; exact absurd heq (hm r1)
    · rename_i r1 heq; exact absurd heq (hp r1)
    · rfl

/-! ## Lemmas on row extraction -/

theorem extractRowData_of_long (row : Row) (h : 11 ≤ row.cells.length) :
    ∃ c0 c5 c6 : Cell,
      row.cells[0]? = some c0 ∧ row.cells[5]? = some c5 ∧ row.cells[6]? = some c6 ∧
      extractRowData row =
        some ⟨trim c0.textContent, trim c6.textContent, orZero (parseInt (trim c5.textContent)),
          (match row.cells[row.cells.length - 1]? with
            | some actionCell => findEditButton actionCell.buttons
            | none => none),
          row⟩ := by
  have h0 : row.cells[0]? = some (row.cells[0]) := List.getElem?_eq_getElem (by omega)
  have h5 : row.cells[5]? = some (row.cells[5]) := List.getElem?_eq_getElem (by omega)
  have h6 : row.cells[6]? = some (row.cells[6]) := List.getElem?_eq_getElem (by omega)
  refine ⟨row.cells[0], row.cells[5], row.cells[6], h0, h5, h6, ?_⟩
  unfold extractRowData
  simp only [h0, h5, h6]
  rw [if_neg (by omega)]

theorem extractRowData_of_short (row : Row) (h : row.cells.length < 11) :
    extractRowData row = none := by
  unfold extractRowData
  simp only
  rw [if_pos h]

theorem extractRowData_row (row : Row) (rd : RowData) (h : extractRowData row = some rd) :
    rd.row = row ∧ 11 ≤ row.cells.length := by
  by_cases hlen : row.cells.length < 11
  · rw [extractRowData_of_short row hlen] at h
    exact absurd h (by simp)
  · obtain ⟨c0, c5, c6, -, -, -, he⟩ := extractRowData_of_long row (by omega)
    rw [he] at h
    simp only [Option.some.injEq] at h
    exact ⟨by rw [← h], by omega⟩

/-! ## Lemmas on the ledger sets -/

theorem setHas_iff (s : List String) (x : String) : setHas s x = true ↔ x ∈ s := by
  simp [setHas]

theorem mem_setAdd (s : List String) (x y : String) : y ∈ setAdd s x ↔ y ∈ s ∨ y = x := by
  unfold setAdd
  split
  · rename_i h
    have hx : x ∈ s := by simpa using h
    constructor
    · exact Or.inl
    · rintro (h1 | rfl)
      · exact h1
      · exact hx
  · simp

theorem mem_setDelete (s : List String) (x y : String) : y ∈ setDelete s x ↔ y ∈ s ∧ y ≠ x := by
  simp [setDelete]

/-! ## Lemmas on `processRow` -/

theorem processRow_processedRows (s : State) (rd : RowData) :
    (processRow s rd).1.processedRows = s.processedRows := by
  unfold processRow
  split
  · rfl
  · split <;> rfl

theorem processRow_processingRows (s : State) (rd : RowData) :
    (processRow s rd).1.processingRows = s.processingRows := by
  unfold processRow
  split
  · rfl
  · split <;> rfl

theorem processRow_timers (s : State) (rd : RowData) :
    (processRow s rd).1.timers = s.timers ∧ (processRow s rd).1.checkTimeout = s.checkTimeout ∧
      (processRow s rd).1.nextHandle = s.nextHandle := by
  unfold processRow
  split
  · exact ⟨rfl, rfl, rfl⟩
  · split <;> exact ⟨rfl, rfl, rfl⟩

theorem processRow_not_handed (s : State) (rd rd1 : RowData) :
    Effect.handed rd1 ∉ (processRow s rd).2 := by
  unfold processRow
  split
  · simp
  · split <;> simp

theorem processRow_busyMatches (s : State) (rd : RowData) (h : BusyMatches s) :
    BusyMatches (processRow s rd).1 := by
  unfold processRow
  split
  · exact h
  · rename_i hb
    have hb1 : s.isProcessing = false := by simpa using hb
    unfold BusyMatches activeSequences at h ⊢
    rw [hb1] at h
    split
    · simp only [List.length_append, List.length_singleton, if_true]
      simp only [Bool.false_eq_true, if_false] at h
      omega
    · simpa using h

/-! ## Lemmas on one scan pass -/

/-- What the callback does for one row: nothing, or mark and hand over. -/
theorem checkRow_cases (acc : State × List Effect) (row : Row) :
    checkRow acc row = acc ∨
    ∃ rd b, extractRowData row = some rd ∧ rd.trackingNumber ∉ acc.1.processedRows ∧
      rd.trackingNumber ∉ acc.1.processingRows ∧
      shouldTriggerNoAction rd.reason rd.attempts = true ∧ rd.editButton = some b ∧
      checkRow acc row =
        ((processRow { acc.1 with
            processingRows := setAdd acc.1.processingRows rd.trackingNumber } rd).1,
          acc.2 ++ [Effect.handed rd] ++
          (processRow { acc.1 with
            processingRows := setAdd acc.1.processingRows rd.trackingNumber } rd).2) := by
  unfold checkRow
  cases hrd : extractRowData row with
  | none => exact Or.inl rfl
  | some rd =>
    simp only
    by_cases h1 : setHas acc.1.processedRows rd.trackingNumber = true
    · rw [if_pos h1]; exact Or.inl rfl
    · rw [if_neg h1]
      by_cases h2 : setHas acc.1.processingRows rd.trackingNumber = true
      · rw [if_pos h2]; exact Or.inl rfl
      · rw [if_neg h2]
        by_cases h3 : shouldTriggerNoAction rd.reason rd.attempts = true
        · rw [if_pos h3]
          cases hb : rd.editButton with
          | none => exact Or.inl rfl
          | some b =>
            refine Or.inr ⟨rd, b, rfl, ?_, ?_, h3, hb, ?_⟩
            · rwa [setHas_iff] at h1
            · rwa [setHas_iff] at h2
            · simp only
        · rw [if_neg h3]; exact Or.inl rfl

theorem scanRows_induction (rows : List Row) (P : State × List Effect → Prop)
    (hstep : ∀ acc row, row ∈ rows → P acc → P (checkRow acc row))
    (acc : State × List Effect) (h : P acc) : P (scanRows acc rows) := by
  induction rows generalizing acc with
  | nil => exact h
  | cons r rs ih =>
    unfold scanRows
    rw [List.foldl_cons]
    exact ih (fun a x hx hp => hstep a x (List.mem_cons_of_mem _ hx) hp) _
      (hstep acc r (List.mem_cons_self _ _) h)

theorem scanRows_append (acc : State × List Effect) (xs ys : List Row) :
    scanRows acc (xs ++ ys) = scanRows (scanRows acc xs) ys := by
  unfold scanRows
  rw [List.foldl_append]

theorem performRowCheck_eq (s : State) (tables : List (List Row)) :
    performRowCheck s tables =
      if s.isProcessing then (s, []) else scanRows (s, []) (allRows tables) := by
  unfold performRowCheck scanRows allRows
  rw [List.foldl_flatten]

theorem checkRow_of_selectable (acc : State × List Effect) (row : Row) (rd : RowData) (b : Button)
    (hrd : extractRowData row = some rd) (h1 : rd.trackingNumber ∉ acc.1.processedRows)
    (h2 : rd.trackingNumber ∉ acc.1.processingRows)
    (h3 : shouldTriggerNoAction rd.reason rd.attempts = true) (hb : rd.editButton = some b) :
    checkRow acc row =
      ((processRow { acc.1 with
          processingRows := setAdd acc.1.processingRows rd.trackingNumber } rd).1,
        acc.2 ++ [Effect.handed rd] ++
        (processRow { acc.1 with
          processingRows := setAdd acc.1.processingRows rd.trackingNumber } rd).2) := by
  unfold checkRow
  rw [hrd]
  simp only
  rw [if_neg (by rw [setHas_iff]; exact h1), if_neg (by rw [setHas_iff]; exact h2), if_pos h3, hb]

theorem checkRow_of_no_button (acc : State × List Effect) (row : Row) (rd : RowData)
    (hrd : extractRowData row = some rd) (hb : rd.editButton = none) :
    checkRow acc row = acc := by
  rcases checkRow_cases acc row with h | ⟨rd1, b, hrd1, -, -, -, hb1, -⟩
  · exact h
  · rw [hrd] at hrd1
    simp only [Option.some.injEq] at hrd1
    rw [← hrd1, hb] at hb1
    exact absurd hb1 (by simp)

theorem ScanFacts.refl (rows : List Row) (acc0 : State × List Effect) :
    ScanFacts rows acc0 acc0 :=
  ⟨rfl, rfl, rfl, rfl, fun _ h => h, List.prefix_refl _, fun _ h => Or.inl h, fun _ h => Or.inl h⟩

theorem ScanFacts.step (rows : List Row) (acc0 acc : State × List Effect) (row : Row)
    (hrow : row ∈ rows) (h : ScanFacts rows acc0 acc) :
    ScanFacts rows acc0 (checkRow acc row) := by
  rcases checkRow_cases acc row with hc | ⟨rd, b, hrd, h1, h2, h3, hb, hc⟩
  · rw [hc]; exact h
  · rw [hc]
    have hrowrd := (extractRowData_row row rd hrd).1
    refine ⟨?_, ?_, ?_, ?_, ?_, ?_, ?_, ?_⟩
    · simp only [processRow_processedRows]; exact h.processed
    · simp only [(processRow_timers _ rd).1]; exact h.timers
    · simp only [(processRow_timers _ rd).2.1]; exact h.checkTimeout
    · simp only [(processRow_timers _ rd).2.2]; exact h.nextHandle
    · intro x hx
      simp only [processRow_processingRows, mem_setAdd]
      exact Or.inl (h.processingMono x hx)
    · exact (h.effectsExtend.trans (List.prefix_append _ _)).trans (List.prefix_append _ _)
    · intro rd1 hmem
      simp only [List.mem_append, List.mem_singleton] at hmem
      simp only [processRow_processingRows, mem_setAdd]
      rcases hmem with (hmem | hmem) | hmem
      · rcases h.handed rd1 hmem with h0 | ⟨ha, hb1, hc1, hd, he, hf, hg⟩
        · exact Or.inl h0
        · exact Or.inr ⟨ha, hb1, hc1, hd, he, hf, Or.inl hg⟩
      · simp only [Effect.handed.injEq] at hmem
        subst hmem
        refine Or.inr ⟨by rw [hrowrd]; exact hrow, by rw [hrowrd]; exact hrd, ?_, ?_, h3, ?_,
          Or.inr rfl⟩
        · rw [← h.processed]; exact h1
        · exact fun hx => h2 (h.processingMono _ hx)
        · rw [hb]; simp
      · exact absurd hmem (processRow_not_handed _ rd rd1)
    · intro x hx
      simp only [processRow_processingRows, mem_setAdd] at hx
      rcases hx with hx | hx
      · rcases h.marked x hx with h0 | ⟨rd1, hm, hid⟩
        · exact Or.inl h0
        · exact Or.inr ⟨rd1, by simp [hm], hid⟩
      · exact Or.inr ⟨rd, by simp, hx.symm⟩

theorem scanRows_facts (rows : List Row) (acc0 : State × List Effect) :
    ScanFacts rows acc0 (scanRows acc0 rows) :=
  scanRows_induction rows (ScanFacts rows acc0)
    (fun acc row hrow h => ScanFacts.step rows acc0 acc row hrow h) acc0 (ScanFacts.refl rows acc0)

/-! ## Invariants of a scan pass -/

theorem checkRow_busyMatches (acc : State × List Effect) (row : Row) (h : BusyMatches acc.1) :
    BusyMatches (checkRow acc row).1 := by
  rcases checkRow_cases acc row with hc | ⟨rd, b, -, -, -, -, -, hc⟩
  · rw [hc]; exact h
  · rw [hc]
    exact processRow_busyMatches _ rd h

theorem checkRow_disjoint (acc : State × List Effect) (row : Row) (h : LedgerDisjoint acc.1) :
    LedgerDisjoint (checkRow acc row).1 := by
  rcases checkRow_cases acc row with hc | ⟨rd, b, -, h1, -, -, -, hc⟩
  · rw [hc]; exact h
  · rw [hc]
    intro x hx
    simp only [processRow_processedRows] at hx
    simp only [processRow_processingRows, mem_setAdd, not_or]
    exact ⟨h x hx, fun hxe => h1 (hxe ▸ hx)⟩

theorem performRowCheck_busyMatches (s : State) (tables : List (List Row)) (h : BusyMatches s) :
    BusyMatches (performRowCheck s tables).1 := by
  rw [performRowCheck_eq]
  split
  · exact h
  · exact scanRows_induction _ (fun acc => BusyMatches acc.1)
      (fun acc row _ hp => checkRow_busyMatches acc row hp) _ h

theorem performRowCheck_disjoint (s : State) (tables : List (List Row)) (h : LedgerDisjoint s) :
    LedgerDisjoint (performRowCheck s tables).1 := by
  rw [performRowCheck_eq]
  split
  · exact h
  · exact scanRows_induction _ (fun acc => LedgerDisjoint acc.1)
      (fun acc row _ hp => checkRow_disjoint acc row hp) _ h

theorem performRowCheck_facts (s : State) (tables : List (List Row)) :
    ScanFacts (allRows tables) (s, []) (performRowCheck s tables) := by
  rw [performRowCheck_eq]
  split
  · exact ScanFacts.refl _ _
  · exact scanRows_facts _ _

/-! ## Invariants of the Processor -/

theorem resumeTask_frame (s : State) (task : Task) (page : Page) :
    (resumeTask s task page).1.running = s.running ∧
    (resumeTask s task page).1.timers = s.timers ∧
    (resumeTask s task page).1.checkTimeout = s.checkTimeout ∧
    (resumeTask s task page).1.nextHandle = s.nextHandle := by
  unfold resumeTask
  cases task.stage with
  | modalDelay => exact ⟨rfl, rfl, rfl, rfl⟩
  | noRadioDelay => simp only; split <;> exact ⟨rfl, rfl, rfl, rfl⟩
  | submitDelay => exact ⟨rfl, rfl, rfl, rfl⟩
  | refocusDelay =>
    simp only
    split
    · exact ⟨rfl, rfl, rfl, rfl⟩
    · split <;> exact ⟨rfl, rfl, rfl, rfl⟩

theorem resumeTask_busy (s : State) (task : Task) (page : Page) :
    ((resumeTask s task page).2.1 = none → (resumeTask s task page).1.isProcessing = false) ∧
    ((resumeTask s task page).2.1 ≠ none →
      (resumeTask s task page).1.isProcessing = s.isProcessing) := by
  unfold resumeTask
  cases task.stage with
  | modalDelay => simp
  | noRadioDelay => simp only; split <;> simp
  | submitDelay => simp
  | refocusDelay =>
    simp only
    split
    · simp
    · split <;> simp

theorem resumeTask_processed_mono (s : State) (task : Task) (page : Page) (x : String)
    (hx : x ∈ s.processedRows) : x ∈ (resumeTask s task page).1.processedRows := by
  unfold resumeTask
  cases task.stage with
  | modalDelay => exact hx
  | noRadioDelay => simp only; split <;> exact hx
  | submitDelay => simp only [mem_setAdd]; exact Or.inl hx
  | refocusDelay =>
    simp only
    split
    · exact hx
    · split <;> exact hx

theorem resumeTask_disjoint (s : State) (task : Task) (page : Page) (h : LedgerDisjoint s) :
    LedgerDisjoint (resumeTask s task page).1 := by
  unfold resumeTask
  cases task.stage with
  | modalDelay => exact h
  | noRadioDelay => simp only; split <;> exact h
  | submitDelay =>
    intro x hx
    simp only [mem_setAdd] at hx
    simp only [mem_setDelete, not_and, not_not]
    intro hp
    rcases hx with hx | hx
    · exact absurd hp (h x hx)
    · exact hx
  | refocusDelay =>
    simp only
    split
    · exact h
    · split
      · exact h
      · intro x hx
        simp only [mem_setDelete, not_and, not_not]
        intro hp
        exact absurd hp (h x hx)

/-! ## Invariants of the event loop -/

theorem step_checkForNewRows (s : State) (now : Nat) :
    step s (Event.checkForNewRows now) = (checkForNewRows now s, []) := rfl

theorem step_timerFires (s : State) (handle : Nat) (page : Page) :
    step s (Event.timerFires handle page) =
      if s.timers.any (fun t => t.handle == handle) then
        scanCallback { s with timers := clearTimeout s.timers handle } page.tables
      else (s, []) := rfl

theorem step_resume (s : State) (index : Nat) (page : Page) :
    step s (Event.resume index page) =
      match s.running[index]? with
      | none => (s, [])
      | some task =>
        match (resumeTask { s with running := s.running.eraseIdx index } task page).2.1 with
        | some task1 =>
          ({ (resumeTask { s with running := s.running.eraseIdx index } task page).1 with
              running :=
                (resumeTask { s with running := s.running.eraseIdx index } task page).1.running ++
                  [task1] },
            (resumeTask { s with running := s.running.eraseIdx index } task page).2.2)
        | none =>
          ((resumeTask { s with running := s.running.eraseIdx index } task page).1,
            (resumeTask { s with running := s.running.eraseIdx index } task page).2.2) := rfl


theorem step_busyMatches (s : State) (e : Event) (h : BusyMatches s) :
    BusyMatches (step s e).1 := by
  cases e with
  | checkForNewRows now => exact h
  | timerFires handle page =>
    rw [step_timerFires]
    split
    · exact performRowCheck_busyMatches _ page.tables h
    · exact h
  | resume index page =>
    rw [step_resume]
    cases htask : s.running[index]? with
    | none => exact h
    | some task =>
      have hlt : index < s.running.length := (List.getElem?_eq_some.mp htask).1
      unfold BusyMatches activeSequences at h
      have hbusy : s.isProcessing = true := by
        cases hb : s.isProcessing with
        | true => rfl
        | false =>
          rw [hb] at h
          simp only [Bool.false_eq_true, if_false] at h
          omega
      have hlen : s.running.length = 1 := by
        rw [hbusy] at h
        simpa only [if_true] using h
      have hempty : (s.running.eraseIdx index).length = 0 := by
        rw [List.length_eraseIdx, if_pos hlt, hlen]
      have hframe : (resumeTask { s with running := s.running.eraseIdx index } task page).1.running
          = s.running.eraseIdx index :=
        (resumeTask_frame { s with running := s.running.eraseIdx index } task page).1
      have hb := resumeTask_busy { s with running := s.running.eraseIdx index } task page
      simp only
      cases hr : (resumeTask { s with running := s.running.eraseIdx index } task page).2.1 with
      | none =>
        have hb1 := hb.1 hr
        unfold BusyMatches activeSequences
        simp only [hframe, hb1, hempty]
        simp
      | some task1 =>
        have hb2 : (resumeTask { s with running := s.running.eraseIdx index } task page).1.isProcessing
            = s.isProcessing := hb.2 (by rw [hr]; simp)
        unfold BusyMatches activeSequences
        simp only [List.length_append, hframe, hempty, hb2]
        simp [hbusy]

theorem step_disjoint (s : State) (e : Event) (h : LedgerDisjoint s) :
    LedgerDisjoint (step s e).1 := by
  cases e with
  | checkForNewRows now => exact h
  | timerFires handle page =>
    rw [step_timerFires]
    split
    · exact performRowCheck_disjoint _ page.tables h
    · exact h
  | resume index page =>
    rw [step_resume]
    cases htask : s.running[index]? with
    | none => exact h
    | some task =>
      have hd := resumeTask_disjoint { s with running := s.running.eraseIdx index } task page h
      simp only
      split
      · exact hd
      · exact hd

theorem step_processed_mono (s : State) (e : Event) (x : String) (hx : x ∈ s.processedRows) :
    x ∈ (step s e).1.processedRows := by
  cases e with
  | checkForNewRows now => exact hx
  | timerFires handle page =>
    rw [step_timerFires]
    split
    · have hf := (performRowCheck_facts { s with timers := clearTimeout s.timers handle }
        page.tables).processed
      unfold scanCallback
      simp only [hf]
      exact hx
    · exact hx
  | resume index page =>
    rw [step_resume]
    cases htask : s.running[index]? with
    | none => exact hx
    | some task =>
      have hm := resumeTask_processed_mono { s with running := s.running.eraseIdx index } task
        page x hx
      simp only
      split
      · exact hm
      · exact hm

theorem step_timerMatches (s : State) (e : Event) (h : TimerMatches s) :
    TimerMatches (step s e).1 := by
  obtain ⟨hlt, hone⟩ := h
  cases e with
  | checkForNewRows now =>
    have hclear : (match s.checkTimeout with
        | some handle => clearTimeout s.timers handle
        | none => s.timers) = [] := by
      rcases hone with h0 | ⟨hd, due, hc, ht⟩
      · rw [h0]; cases s.checkTimeout <;> simp [clearTimeout]
      · rw [hc, ht]; simp [clearTimeout]
    rw [step_checkForNewRows]
    unfold checkForNewRows
    simp only [hclear, List.nil_append]
    refine ⟨?_, Or.inr ⟨s.nextHandle, now + 100, rfl, rfl⟩⟩
    intro t ht
    simp only [List.mem_singleton] at ht
    rw [ht]
    exact Nat.lt_succ_self _
  | timerFires handle page =>
    rw [step_timerFires]
    split
    · rename_i hany
      have hcleared : clearTimeout s.timers handle = [] := by
        rcases hone with h0 | ⟨hd, due, hc, ht⟩
        · rw [h0] at hany; simp at hany
        · rw [ht] at hany ⊢
          simp only [List.any_cons, List.any_nil, Bool.or_false, beq_iff_eq] at hany
          simp [clearTimeout, hany]
      have hf : (performRowCheck { s with timers := clearTimeout s.timers handle }
          page.tables).1.timers = [] := by
        rw [← hcleared]
        exact (performRowCheck_facts { s with timers := clearTimeout s.timers handle }
          page.tables).timers
      unfold scanCallback
      refine ⟨?_, Or.inl ?_⟩
      · intro t ht
        simp only [hf] at ht
        exact absurd ht (List.not_mem_nil t)
      · simp only [hf]
    · exact ⟨hlt, hone⟩
  | resume index page =>
    rw [step_resume]
    cases htask : s.running[index]? with
    | none => exact ⟨hlt, hone⟩
    | some task =>
      have hf := resumeTask_frame { s with running := s.running.eraseIdx index } task page
      have h1 : (resumeTask { s with running := s.running.eraseIdx index } task page).1.timers
          = s.timers := hf.2.1
      have h2 : (resumeTask { s with running := s.running.eraseIdx index } task page).1.checkTimeout
          = s.checkTimeout := hf.2.2.1
      have h3 : (resumeTask { s with running := s.running.eraseIdx index } task page).1.nextHandle
          = s.nextHandle := hf.2.2.2
      simp only
      split
      · unfold TimerMatches
        simp only [h1, h2, h3]
        exact ⟨hlt, hone⟩
      · unfold TimerMatches
        simp only [h1, h2, h3]
        exact ⟨hlt, hone⟩

theorem run_invariant (P : State → Prop) (hstep : ∀ s e, P s → P (step s e).1)
    (es : List Event) (s : State) (h : P s) : P (run s es).1 := by
  induction es generalizing s with
  | nil => exact h
  | cons e es ih => exact ih (step s e).1 (hstep s e h)

theorem init_busyMatches : BusyMatches State.init := by
  unfold BusyMatches activeSequences State.init
  simp

theorem init_disjoint : LedgerDisjoint State.init := by
  intro x hx
  simp [State.init] at hx

theorem init_timerMatches : TimerMatches State.init := by
  refine ⟨?_, Or.inl rfl⟩
  intro t ht
  simp [State.init] at ht

/-! ## The debounce timer on a clock -/

theorem runDueTimers_idle (page : Page) (now : Nat) (s : State) (h : s.timers = []) :
    runDueTimers page now s = (s, []) := by
  unfold runDueTimers
  rw [h]
  rfl

theorem runDueTimers_early (page : Page) (now : Nat) (s : State) (handle due : Nat)
    (h : s.timers = [⟨handle, due⟩]) (hnow : now < due) :
    runDueTimers page now s = (s, []) := by
  unfold runDueTimers
  rw [h]
  simp only [List.filter_cons, List.filter_nil]
  rw [if_neg (by simp; omega)]
  rfl

theorem runDueTimers_due (page : Page) (now : Nat) (s : State) (handle due : Nat)
    (h : s.timers = [⟨handle, due⟩]) (hnow : due ≤ now) :
    (runDueTimers page now s).2 = [due] := by
  unfold runDueTimers
  rw [h]
  simp only [List.filter_cons, List.filter_nil]
  rw [if_pos (by simpa using hnow)]
  rfl

theorem checkForNewRows_idle (now : Nat) (s : State) (h : s.timers = []) :
    (checkForNewRows now s).timers = [⟨s.nextHandle, now + 100⟩] ∧
      (checkForNewRows now s).checkTimeout = some s.nextHandle := by
  unfold checkForNewRows
  rw [h]
  cases s.checkTimeout <;> simp [clearTimeout]

theorem checkForNewRows_pending (now : Nat) (s : State) (handle due : Nat)
    (h : s.timers = [⟨handle, due⟩]) (hc : s.checkTimeout = some handle) :
    (checkForNewRows now s).timers = [⟨s.nextHandle, now + 100⟩] ∧
      (checkForNewRows now s).checkTimeout = some s.nextHandle := by
  unfold checkForNewRows
  rw [h, hc]
  simp [clearTimeout]

theorem burst_pending (page : Page) (horizon : Nat) (ts : List Nat) :
    ∀ (s : State) (handle call : Nat), s.timers = [⟨handle, call + 100⟩] →
      s.checkTimeout = some handle → WithinWindow (call :: ts) →
      (burst page horizon ts s).2 =
        if ts.getLastD call + 100 ≤ horizon then [ts.getLastD call + 100] else [] := by
  induction ts with
  | nil =>
    intro s handle call ht _ _
    simp only [burst, List.getLastD_nil]
    split
    · rename_i hle
      exact runDueTimers_due page horizon s handle (call + 100) ht hle
    · rename_i hle
      rw [runDueTimers_early page horizon s handle (call + 100) ht (by omega)]
  | cons t ts ih =>
    intro s handle call ht hc hwin
    obtain ⟨-, hlt, hrest⟩ := hwin
    simp only [burst, List.getLastD_cons]
    rw [runDueTimers_early page t s handle (call + 100) ht hlt]
    obtain ⟨h1, h2⟩ := checkForNewRows_pending t s handle (call + 100) ht hc
    rw [ih (checkForNewRows t s) s.nextHandle t h1 h2 hrest]
    simp

theorem burst_idle (page : Page) (horizon : Nat) (first : Nat) (rest : List Nat) (s : State)
    (hidle : s.timers = []) (hwin : WithinWindow (first :: rest)) :
    (burst page horizon (first :: rest) s).2 =
      if rest.getLastD first + 100 ≤ horizon then [rest.getLastD first + 100] else [] := by
  simp only [burst]
  rw [runDueTimers_idle page first s hidle]
  obtain ⟨h1, h2⟩ := checkForNewRows_idle first s hidle
  rw [burst_pending page horizon rest (checkForNewRows first s) s.nextHandle first h1 h2 hwin]
  simp

theorem resumeTask_next (s : State) (rd : RowData) (page : Page) :
    (resumeTask s ⟨rd, Stage.modalDelay⟩ page).2.1 = some ⟨rd, Stage.noRadioDelay⟩ ∧
    ((resumeTask s ⟨rd, Stage.noRadioDelay⟩ page).2.1 = none ∨
      (resumeTask s ⟨rd, Stage.noRadioDelay⟩ page).2.1 = some ⟨rd, Stage.submitDelay⟩) ∧
    (resumeTask s ⟨rd, Stage.submitDelay⟩ page).2.1 = some ⟨rd, Stage.refocusDelay⟩ ∧
    (resumeTask s ⟨rd, Stage.refocusDelay⟩ page).2.1 = none := by
  refine ⟨rfl, ?_, rfl, ?_⟩
  · unfold resumeTask
    simp only
    split
    · exact Or.inr rfl
    · exact Or.inl rfl
  · unfold resumeTask
    simp only
    split
    · rfl
    · split <;> rfl

theorem resumeAll_of_none (s : State) (task : Task) (page : Page) (pages : List Page)
    (h : (resumeTask s task page).2.1 = none) :
    (resumeAll s task (page :: pages)).2 = none ∧
      (resumeAll s task (page :: pages)).1.isProcessing = false := by
  unfold resumeAll
  rw [h]
  exact ⟨rfl, (resumeTask_busy s task page).1 h⟩

theorem resumeAll_of_some (s : State) (task task1 : Task) (page : Page) (pages : List Page)
    (h : (resumeTask s task page).2.1 = some task1) :
    resumeAll s task (page :: pages) = resumeAll (resumeTask s task page).1 task1 pages := by
  conv_lhs => unfold resumeAll
  rw [h]

theorem resumeAll_exits (s : State) (task : Task) (p1 p2 p3 p4 : Page) :
    (resumeAll s task [p1, p2, p3, p4]).2 = none ∧
      (resumeAll s task [p1, p2, p3, p4]).1.isProcessing = false := by
  have refocus : ∀ (s : State) (rd : RowData) (p : Page) (ps : List Page),
      (resumeAll s ⟨rd, Stage.refocusDelay⟩ (p :: ps)).2 = none ∧
        (resumeAll s ⟨rd, Stage.refocusDelay⟩ (p :: ps)).1.isProcessing = false :=
    fun s rd p ps => resumeAll_of_none s _ p ps (resumeTask_next s rd p).2.2.2
  have submit : ∀ (s : State) (rd : RowData) (p q : Page) (ps : List Page),
      (resumeAll s ⟨rd, Stage.submitDelay⟩ (p :: q :: ps)).2 = none ∧
        (resumeAll s ⟨rd, Stage.submitDelay⟩ (p :: q :: ps)).1.isProcessing = false := by
    intro s rd p q ps
    rw [resumeAll_of_some s _ _ p (q :: ps) (resumeTask_next s rd p).2.2.1]
    exact refocus _ rd q ps
  have noRadio : ∀ (s : State) (rd : RowData) (p q r : Page) (ps : List Page),
      (resumeAll s ⟨rd, Stage.noRadioDelay⟩ (p :: q :: r :: ps)).2 = none ∧
        (resumeAll s ⟨rd, Stage.noRadioDelay⟩ (p :: q :: r :: ps)).1.isProcessing = false := by
    intro s rd p q r ps
    rcases (resumeTask_next s rd p).2.1 with h | h
    · exact resumeAll_of_none s _ p _ h
    · rw [resumeAll_of_some s _ _ p (q :: r :: ps) h]
      exact submit _ rd q r ps
  obtain ⟨rd, stage⟩ := task
  cases stage
  · rw [resumeAll_of_some s _ _ p1 [p2, p3, p4] (resumeTask_next s rd p1).1]
    exact noRadio _ rd p2 p3 p4 []
  · exact noRadio s rd p1 p2 p3 [p4]
  · exact submit s rd p1 p2 [p3, p4]
  · exact refocus s rd p1 [p2, p3, p4]

/-- Sample values of `parseInt` beyond 2^53: ties go to the even significand,
and the largest double is not an infinity. -/
theorem parseInt_rounding_samples :
    parseInt "9007199254740993" = JsNumber.finite 9007199254740992 ∧
    parseInt "9007199254740995" = JsNumber.finite 9007199254740996 ∧
    parseInt "-18014398509481990" = JsNumber.finite (-18014398509481992) ∧
    parseInt "100000000000000000000000" = JsNumber.finite 99999999999999991611392 ∧
    parseInt "0x20000000000001" = JsNumber.finite 9007199254740992 ∧
    parseInt "12.5" = JsNumber.finite 12 ∧ parseInt "abc" = JsNumber.nan := by
  decide

/-! ## The claims -/

/-- C1: `shouldTriggerNoAction(r, n)` is true exactly when the lower-cased
reason contains "refuse" or "cancelled" as a substring, or `n >= 2`; the three
examples of the specification evaluate as stated.  For the numbers that are not
integers: `+Infinity` counts as `>= 2`, `-Infinity` and `NaN` do not. -/
theorem shouldTriggerNoAction_iff (r : String) (n : Int) :
    (shouldTriggerNoAction r n = true ↔
      (HasSubstring (toLowerCase r) "refuse" ∨ HasSubstring (toLowerCase r) "cancelled" ∨
        n ≥ 2)) ∧
    shouldTriggerNoAction "Customer refuses delivery" 0 = true ∧
    shouldTriggerNoAction "Address incorrect" 1 = false ∧
    shouldTriggerNoAction "Address incorrect" 2 = true ∧
    shouldTriggerNoAction r (JsNumber.infinity false) = true ∧
    (shouldTriggerNoAction r (JsNumber.infinity true) = true ↔
      (HasSubstring (toLowerCase r) "refuse" ∨ HasSubstring (toLowerCase r) "cancelled")) ∧
    (shouldTriggerNoAction r JsNumber.nan = true ↔
      (HasSubstring (toLowerCase r) "refuse" ∨ HasSubstring (toLowerCase r) "cancelled")) := by
  refine ⟨?_, by decide, by decide, by decide, ?_, ?_, ?_⟩
  · unfold shouldTriggerNoAction
    simp only [← includes_iff]
    by_cases h1 : includes (toLowerCase r) "refuse" = true
    · simp [h1]
    · by_cases h2 : includes (toLowerCase r) "cancelled" = true
      · simp [h2]
      · simp [h1, h2, JsNumber.ge]
  · unfold shouldTriggerNoAction
    simp [JsNumber.ge]
  · unfold shouldTriggerNoAction
    simp only [← includes_iff]
    simp [JsNumber.ge]
  · unfold shouldTriggerNoAction
    simp only [← includes_iff]
    simp [JsNumber.ge]

/-- C5: in every state reached from the initial one by scan requests, scan
passes and Processor steps, on any pages (rows may share an identity), no
identity is in both `processedRows` and `processingRows`. -/
theorem completed_inFlight_disjoint (es : List Event) (x : String) :
    ¬ (x ∈ (run State.init es).1.processedRows ∧ x ∈ (run State.init es).1.processingRows) := by
  have h := run_invariant LedgerDisjoint step_disjoint es State.init init_disjoint
  exact fun ⟨h1, h2⟩ => h x h1 h2

set_option maxRecDepth 20000 in
/-- C10, as stated, fails on three texts of the attempts cell.  "-5" gives the
count -5, which is not `>= 0`.  "2nd", which is not a number, gives 2 and not 0.
A one followed by 309 zeros gives `Infinity`, which is not an integer. -/
theorem attempts_counterexample :
    (11 ≤ (sampleRow "LEX001" "-5" "In transit" []).cells.length ∧
      (extractRowData (sampleRow "LEX001" "-5" "In transit" [])).map RowData.attempts
        = some (JsNumber.finite (-5)) ∧
      ¬ (0 : Int) ≤ -5) ∧
    (11 ≤ (sampleRow "LEX001" "2nd" "In transit" []).cells.length ∧
      (extractRowData (sampleRow "LEX001" "2nd" "In transit" [])).map RowData.attempts
        = some (JsNumber.finite 2) ∧
      ¬ (2 : Int) = 0) ∧
    (11 ≤ (sampleRow "LEX001" hugeText "In transit" []).cells.length ∧
      (extractRowData (sampleRow "LEX001" hugeText "In transit" [])).map RowData.attempts
        = some (JsNumber.infinity false)) := by
  decide

/-- C10, amended: for a row with at least 11 cells `extractRowData` returns a
record whose attempt count is never `NaN`: it is an integer that a double holds
exactly, or an infinity.  It is `>= 0` (an integer or `+Infinity`) whenever the
trimmed text of cell 5 does not start with `-`, and it is 0 whenever the trimmed
text is empty or, after an optional sign, does not start with a decimal
digit. -/
theorem extractRowData_attempts (row : Row) (c5 : Cell)
    (hlen : 11 ≤ row.cells.length) (h5 : row.cells[5]? = some c5) :
    ∃ rd, extractRowData row = some rd ∧
      rd.attempts ≠ JsNumber.nan ∧
      (∀ v : Int, rd.attempts = JsNumber.finite v → IsDoubleInteger v) ∧
      (startsWithChars [ '-' ] (trim c5.textContent).data = false →
        rd.attempts.NonNegative) ∧
      (NoLeadingDigit (trim c5.textContent) → rd.attempts = JsNumber.finite 0) := by
  obtain ⟨c0, c5a, c6, -, h5a, -, he⟩ := extractRowData_of_long row hlen
  rw [h5] at h5a
  simp only [Option.some.injEq] at h5a
  subst h5a
  have htrim : trimStartChars (trim c5.textContent).data = (trim c5.textContent).data :=
    trimStartChars_trimChars c5.textContent.data
  refine ⟨_, he, orZero_ne_nan _, ?_, ?_, ?_⟩
  · intro v hv
    exact orZero_parseInt_isDouble _ v hv
  · intro hminus
    exact orZero_parseInt_nonneg _ (by rw [htrim]; exact hminus)
  · intro hno
    have hnan : parseInt (trim c5.textContent) = JsNumber.nan :=
      parseInt_nan_of_noLeadingDigit _ (by rw [htrim]; exact hno)
    simp only [hnan, orZero]

/-- Witness for C10 (amended): the attempts cell " abc " gives the count 0. -/
theorem extractRowData_attempts_witness :
    11 ≤ (sampleRow "LEX001" " abc " "In transit" []).cells.length ∧
    (sampleRow "LEX001" " abc " "In transit" []).cells[5]? = some (textCell " abc ") ∧
    ∃ rd, extractRowData (sampleRow "LEX001" " abc " "In transit" []) = some rd ∧
      rd.attempts ≠ JsNumber.nan ∧
      (∀ v : Int, rd.attempts = JsNumber.finite v → IsDoubleInteger v) ∧
      (startsWithChars [ '-' ] (trim (textCell " abc ").textContent).data = false →
        rd.attempts.NonNegative) ∧
      (NoLeadingDigit (trim (textCell " abc ").textContent) →
        rd.attempts = JsNumber.finite 0) :=
  ⟨by decide, by decide,
    extractRowData_attempts (sampleRow "LEX001" " abc " "In transit" []) (textCell " abc ")
      (by decide) (by decide)⟩

/-- C8: `extractRowData` returns `null` exactly for rows with fewer than 11
cells; otherwise the record holds the trimmed text of cell 0 as identity, the
trimmed text of cell 6 as reason and the attempt count parsed from cell 5.  A
scan pass hands over only rows with at least 11 cells, marks in flight only
identities of rows it hands over, and gives the same result when a row with
fewer than 11 cells is taken out of the page. -/
theorem extractRowData_null_iff_short (row : Row) :
    (extractRowData row = none ↔ row.cells.length < 11) ∧
    (11 ≤ row.cells.length → ∃ rd c0 c5 c6,
      row.cells[0]? = some c0 ∧ row.cells[5]? = some c5 ∧ row.cells[6]? = some c6 ∧
      extractRowData row = some rd ∧ rd.trackingNumber = trim c0.textContent ∧
      rd.reason = trim c6.textContent ∧
      rd.attempts = orZero (parseInt (trim c5.textContent))) ∧
    (∀ (s : State) (tables : List (List Row)),
      (∀ rd, Effect.handed rd ∈ (performRowCheck s tables).2 → 11 ≤ rd.row.cells.length) ∧
      (∀ x, x ∈ (performRowCheck s tables).1.processingRows → x ∈ s.processingRows ∨
        ∃ rd, Effect.handed rd ∈ (performRowCheck s tables).2 ∧ rd.trackingNumber = x)) ∧
    (row.cells.length < 11 →
      ∀ (s : State) (tablesBefore tablesAfter : List (List Row)) (before after : List Row),
        performRowCheck s (tablesBefore ++ [before ++ row :: after] ++ tablesAfter) =
          performRowCheck s (tablesBefore ++ [before ++ after] ++ tablesAfter)) := by
  refine ⟨?_, ?_, ?_, ?_⟩
  · constructor
    · intro h
      by_contra hlen
      obtain ⟨_, _, _, -, -, -, he⟩ := extractRowData_of_long row (by omega)
      rw [he] at h
      exact absurd h (by simp)
    · exact extractRowData_of_short row
  · intro hlen
    obtain ⟨c0, c5, c6, h0, h5, h6, he⟩ := extractRowData_of_long row hlen
    exact ⟨_, c0, c5, c6, h0, h5, h6, he, rfl, rfl, rfl⟩
  · intro s tables
    have hf := performRowCheck_facts s tables
    constructor
    · intro rd hrd
      rcases hf.handed rd hrd with h0 | ⟨-, hex, -⟩
      · exact absurd h0 (List.not_mem_nil _)
      · exact (extractRowData_row rd.row rd hex).2
    · exact hf.marked
  · intro hshort s tablesBefore tablesAfter before after
    have hrow : ∀ acc, checkRow acc row = acc := by
      intro acc
      unfold checkRow
      rw [extractRowData_of_short row hshort]
    simp only [performRowCheck_eq, allRows, List.flatten_append, List.flatten_cons,
      List.flatten_nil, List.append_nil, scanRows_append]
    have hcons : ∀ acc, scanRows acc (row :: after) = scanRows acc after := by
      intro acc
      unfold scanRows
      rw [List.foldl_cons, hrow]
    rw [hcons]

/-- Witness for C8: row A of the scenario has eleven cells and is extracted; a
row of three cells is ignored by the scan. -/
theorem extractRowData_null_iff_short_witness :
    (11 ≤ rowA.cells.length ∧ ∃ rd c0 c5 c6,
      rowA.cells[0]? = some c0 ∧ rowA.cells[5]? = some c5 ∧ rowA.cells[6]? = some c6 ∧
      extractRowData rowA = some rd ∧ rd.trackingNumber = trim c0.textContent ∧
      rd.reason = trim c6.textContent ∧
      rd.attempts = orZero (parseInt (trim c5.textContent))) ∧
    ((⟨[textCell "B", textCell "3", ⟨"", [⟨"Edit"⟩]⟩]⟩ : Row).cells.length < 11 ∧
      performRowCheck State.init
          ([] ++ [[rowA] ++ ⟨[textCell "B", textCell "3", ⟨"", [⟨"Edit"⟩]⟩]⟩ :: [rowB]] ++ []) =
        performRowCheck State.init ([] ++ [[rowA] ++ [rowB]] ++ [])) :=
  ⟨⟨by decide, (extractRowData_null_iff_short rowA).2.1 (by decide)⟩,
    ⟨by decide,
      (extractRowData_null_iff_short ⟨[textCell "B", textCell "3", ⟨"", [⟨"Edit"⟩]⟩]⟩).2.2.2
        (by decide) State.init [] [] [rowA] [rowB]⟩⟩

/-- C6: an identity in `processedRows` stays there along every run; a scan pass
from a state that holds it as completed neither hands over a row with that
identity nor adds it to `processingRows`, whatever the page shows; and a scan of
a page whose eligible rows are all completed returns the state unchanged and
does nothing to the page. -/
theorem completed_never_selected_again (s : State) :
    (∀ (x : String) (es : List Event), x ∈ s.processedRows →
      x ∈ (run s es).1.processedRows) ∧
    (∀ (x : String) (tables : List (List Row)), x ∈ s.processedRows →
      (∀ rd, Effect.handed rd ∈ (performRowCheck s tables).2 → rd.trackingNumber ≠ x) ∧
      (x ∈ (performRowCheck s tables).1.processingRows → x ∈ s.processingRows)) ∧
    (∀ tables : List (List Row),
      (∀ row, row ∈ allRows tables → ∀ rd, extractRowData row = some rd →
        shouldTriggerNoAction rd.reason rd.attempts = true →
        rd.trackingNumber ∈ s.processedRows) →
      performRowCheck s tables = (s, [])) := by
  refine ⟨?_, ?_, ?_⟩
  · intro x es hx
    exact run_invariant (fun st => x ∈ st.processedRows)
      (fun st e h => step_processed_mono st e x h) es s hx
  · intro x tables hx
    have hf := performRowCheck_facts s tables
    have hnot : ∀ rd, Effect.handed rd ∈ (performRowCheck s tables).2 →
        rd.trackingNumber ≠ x := by
      intro rd hrd hid
      rcases hf.handed rd hrd with h0 | ⟨-, -, hnp, -⟩
      · exact absurd h0 (List.not_mem_nil _)
      · exact hnp (hid ▸ hx)
    refine ⟨hnot, ?_⟩
    intro hin
    rcases hf.marked x hin with h0 | ⟨rd, hrd, hid⟩
    · exact h0
    · exact absurd hid (hnot rd hrd)
  · intro tables hall
    rw [performRowCheck_eq]
    split
    · rfl
    · refine scanRows_induction (allRows tables) (fun acc => acc = (s, [])) ?_ (s, []) rfl
      intro acc row hrow hacc
      rw [hacc]
      rcases checkRow_cases (s, []) row with hc | ⟨rd, b, hrd, h1, -, h3, -, -⟩
      · exact hc
      · exact absurd (hall row hrow rd hrd h3) h1

/-- Witness for C6: after the scenario "A" is completed; it stays completed, and
a scan of a page showing only row A changes nothing. -/
theorem completed_never_selected_again_witness :
    "A" ∈ afterA.processedRows ∧
    (∀ es : List Event, "A" ∈ (run afterA es).1.processedRows) ∧
    (∀ rd, Effect.handed rd ∈ (performRowCheck afterA [[rowA, rowB]]).2 →
      rd.trackingNumber ≠ "A") ∧
    performRowCheck afterA [[rowA]] = (afterA, []) :=
  ⟨by decide,
    fun es => (completed_never_selected_again afterA).1 "A" es (by decide),
    ((completed_never_selected_again afterA).2.1 "A" [[rowA, rowB]] (by decide)).1,
    (completed_never_selected_again afterA).2.2 [[rowA]] (by
      intro row hrow rd hrd _
      have hrowA : row = rowA := by simpa [allRows] using hrow
      subst hrowA
      have hA : extractRowData rowA = some recordA := by decide
      rw [hA] at hrd
      simp only [Option.some.injEq] at hrd
      subst hrd
      decide)⟩

/-- C4: in every state reached from the initial one by scan requests, scan
passes and Processor steps, the number of `processRow` calls that have started
and not returned is 1 when `isProcessing` is true and 0 when it is false, so it
is never more than 1.  `isProcessing` is false when `processRow` returns without
an action control and whenever a resumed call returns (failed No selection,
success, exception), and a suspended call returns after at most four delays. -/
theorem one_active_sequence (es : List Event) :
    (activeSequences (run State.init es).1 =
      if (run State.init es).1.isProcessing then 1 else 0) ∧
    activeSequences (run State.init es).1 ≤ 1 ∧
    (∀ (s : State) (rd : RowData), s.isProcessing = false → rd.editButton = none →
      (processRow s rd).1.isProcessing = false ∧ (processRow s rd).1.running = s.running) ∧
    (∀ (s : State) (task : Task) (page : Page), (resumeTask s task page).2.1 = none →
      (resumeTask s task page).1.isProcessing = false) ∧
    (∀ (s : State) (task : Task) (p1 p2 p3 p4 : Page),
      (resumeAll s task [p1, p2, p3, p4]).2 = none ∧
      (resumeAll s task [p1, p2, p3, p4]).1.isProcessing = false) := by
  have h := run_invariant BusyMatches step_busyMatches es State.init init_busyMatches
  refine ⟨h, ?_, ?_, ?_, resumeAll_exits⟩
  · unfold BusyMatches at h
    rw [h]
    split <;> omega
  · intro s rd hs hb
    unfold processRow
    rw [hs, hb]
    exact ⟨rfl, rfl⟩
  · intro s task page hnone
    exact (resumeTask_busy s task page).1 hnone

/-- Witness for C4: the scenario stopped in the middle of A's sequence has one
active call and the flag set; the exit paths are taken on sample inputs. -/
theorem one_active_sequence_witness :
    (activeSequences (run State.init (scenarioEvents.take 4)).1 = 1 ∧
      (run State.init (scenarioEvents.take 4)).1.isProcessing = true) ∧
    (activeSequences (run State.init scenarioEvents).1 = 0 ∧
      (run State.init scenarioEvents).1.isProcessing = false) ∧
    (processRow State.init recordNoButton).1.isProcessing = false ∧
    (resumeTask markedT1 ⟨recordT1, Stage.noRadioDelay⟩ (pageNoDialog [])).1.isProcessing
      = false ∧
    (resumeTask markedT1 ⟨recordT1, Stage.refocusDelay⟩ ⟨[], none, none, some false⟩).1.isProcessing
      = false :=
  ⟨⟨by rw [(one_active_sequence (scenarioEvents.take 4)).1]; decide, by decide⟩,
    ⟨by rw [(one_active_sequence scenarioEvents).1]; decide, by decide⟩,
    ((one_active_sequence []).2.2.1 State.init recordNoButton (by decide) (by decide)).1,
    (one_active_sequence []).2.2.2.1 markedT1 ⟨recordT1, Stage.noRadioDelay⟩ (pageNoDialog [])
      (by decide),
    (one_active_sequence []).2.2.2.1 markedT1 ⟨recordT1, Stage.refocusDelay⟩
      ⟨[], none, none, some false⟩ (by decide)⟩

/-- C7: when no scan is pending and `checkForNewRows` is called N >= 1 times,
each call less than 100 ms after the previous one, `performRowCheck` runs exactly
once, 100 ms after the last call (and not before); and in every reachable state
with a pending scan, a call leaves the old timer cancelled and exactly one new
timer pending, due 100 ms after the call. -/
theorem debounce_single_scan (page : Page) (s : State) (first : Nat) (rest : List Nat)
    (horizon : Nat) (hidle : s.timers = []) (hwin : WithinWindow (first :: rest)) :
    (rest.getLastD first + 100 ≤ horizon →
      (burst page horizon (first :: rest) s).2 = [rest.getLastD first + 100]) ∧
    (horizon < rest.getLastD first + 100 →
      (burst page horizon (first :: rest) s).2 = []) ∧
    (∀ (es : List Event) (now : Nat), (run State.init es).1.timers ≠ [] →
      (checkForNewRows now (run State.init es).1).timers =
        [⟨(run State.init es).1.nextHandle, now + 100⟩] ∧
      (checkForNewRows now (run State.init es).1).checkTimeout =
        some (run State.init es).1.nextHandle ∧
      ∀ t, t ∈ (run State.init es).1.timers →
        t ∉ (checkForNewRows now (run State.init es).1).timers) := by
  have hb := burst_idle page horizon first rest s hidle hwin
  refine ⟨?_, ?_, ?_⟩
  · intro hle
    rw [hb, if_pos hle]
  · intro hlt
    rw [hb, if_neg (by omega)]
  · intro es now hpending
    obtain ⟨hlt, hone⟩ :=
      run_invariant TimerMatches step_timerMatches es State.init init_timerMatches
    rcases hone with h0 | ⟨handle, due, hc, ht⟩
    · exact absurd h0 hpending
    · obtain ⟨h1, h2⟩ := checkForNewRows_pending now _ handle due ht hc
      refine ⟨h1, h2, ?_⟩
      intro t htmem
      rw [h1]
      simp only [List.mem_singleton]
      intro heq
      have := hlt t htmem
      rw [heq] at this
      exact absurd this (Nat.lt_irrefl _)

/-- Witness for C7: calls at 0, 50 and 120 ms give one scan, at 220 ms. -/
theorem debounce_single_scan_witness :
    State.init.timers = [] ∧ WithinWindow [0, 50, 120] ∧
    (burst (pageWith []) 1000 [0, 50, 120] State.init).2 = [220] ∧
    (burst (pageWith []) 219 [0, 50, 120] State.init).2 = [] :=
  ⟨rfl, by simp [WithinWindow],
    (debounce_single_scan (pageWith []) State.init 0 [50, 120] 1000 rfl
      (by simp [WithinWindow])).1 (by decide),
    (debounce_single_scan (pageWith []) State.init 0 [50, 120] 219 rfl
      (by simp [WithinWindow])).2.1 (by decide)⟩

/-- C9: in a scan pass started with `isProcessing = false`, a row that is
extracted and has no Edit button (eligible and processable or not) changes
nothing when the pass reaches it, is never handed over, and its identity is not
marked unless another row carries it; the pass goes on, and a later row that is
eligible, processable, has an Edit button and is the first row carrying its
identity is marked in flight and handed to `processRow` in the same pass. -/
theorem scan_continues_past_row_without_control (s : State) (tables : List (List Row))
    (before between after : List Row) (x y : Row) (xd yd : RowData) (b : Button)
    (hbusy : s.isProcessing = false)
    (hrows : allRows tables = before ++ x :: (between ++ y :: after))
    (hx : extractRowData x = some xd)
    (hxf : xd.trackingNumber ∉ s.processingRows) (hxb : xd.editButton = none)
    (hy : extractRowData y = some yd)
    (hyc : yd.trackingNumber ∉ s.processedRows) (hyf : yd.trackingNumber ∉ s.processingRows)
    (hye : shouldTriggerNoAction yd.reason yd.attempts = true) (hyb : yd.editButton = some b)
    (hfirst : ∀ r, r ∈ before ++ between → ∀ rd, extractRowData r = some rd →
      rd.trackingNumber ≠ yd.trackingNumber) :
    scanRows (s, []) (before ++ [x]) = scanRows (s, []) before ∧
    (∀ rd, Effect.handed rd ∈ (performRowCheck s tables).2 → rd.row ≠ x) ∧
    ((∀ r, r ∈ before ++ (between ++ y :: after) → ∀ rd, extractRowData r = some rd →
        rd.trackingNumber ≠ xd.trackingNumber) →
      xd.trackingNumber ∉ (performRowCheck s tables).1.processingRows) ∧
    Effect.handed yd ∈ (performRowCheck s tables).2 ∧
    yd.trackingNumber ∈ (performRowCheck s tables).1.processingRows := by
  have hf := performRowCheck_facts s tables
  have hnotx : ∀ rd, Effect.handed rd ∈ (performRowCheck s tables).2 → rd.row ≠ x := by
    intro rd hrd hrow
    rcases hf.handed rd hrd with h0 | ⟨-, hex, -, -, -, hbtn, -⟩
    · exact absurd h0 (List.not_mem_nil _)
    · rw [hrow, hx] at hex
      simp only [Option.some.injEq] at hex
      rw [← hex] at hbtn
      exact hbtn hxb
  refine ⟨?_, hnotx, ?_, ?_⟩
  · rw [scanRows_append]
    unfold scanRows
    rw [List.foldl_cons, List.foldl_nil]
    exact checkRow_of_no_button _ x xd hx hxb
  · intro hunique hin
    rcases hf.marked _ hin with h0 | ⟨rd, hrd, hid⟩
    · exact hxf h0
    · rcases hf.handed rd hrd with h0 | ⟨hmem, hex, -⟩
      · exact absurd h0 (List.not_mem_nil _)
      · rw [hrows] at hmem
        simp only [List.mem_append, List.mem_cons] at hmem
        rcases hmem with hm | hm | hm
        · exact hunique rd.row (by simp [hm]) rd hex hid
        · exact hnotx rd hrd hm
        · exact hunique rd.row (by
            simp only [List.mem_append, List.mem_cons]
            exact Or.inr hm) rd hex hid
  · rw [performRowCheck_eq, hbusy]
    simp only [Bool.false_eq_true, if_false]
    have hsplit : allRows tables = (before ++ x :: between) ++ y :: after := by
      rw [hrows]; simp
    rw [hsplit, scanRows_append]
    have hf1 := scanRows_facts (before ++ x :: between) (s, [])
    have hyc1 : yd.trackingNumber ∉ (scanRows (s, []) (before ++ x :: between)).1.processedRows := by
      rw [hf1.processed]; exact hyc
    have hyf1 : yd.trackingNumber ∉
        (scanRows (s, []) (before ++ x :: between)).1.processingRows := by
      intro hin
      rcases hf1.marked _ hin with h0 | ⟨rd, hrd, hid⟩
      · exact hyf h0
      · rcases hf1.handed rd hrd with h0 | ⟨hmem, hex, -, -, -, hbtn, -⟩
        · exact absurd h0 (List.not_mem_nil _)
        · simp only [List.mem_append, List.mem_cons] at hmem
          rcases hmem with hm | hm | hm
          · exact hfirst rd.row (by simp [hm]) rd hex hid
          · rw [hm, hx] at hex
            simp only [Option.some.injEq] at hex
            rw [← hex] at hbtn
            exact hbtn hxb
          · exact hfirst rd.row (by simp [hm]) rd hex hid
    have hstep := checkRow_of_selectable (scanRows (s, []) (before ++ x :: between)) y yd b hy
      hyc1 hyf1 hye hyb
    have hf2 := scanRows_facts after (checkRow (scanRows (s, []) (before ++ x :: between)) y)
    have hscan : scanRows (scanRows (s, []) (before ++ x :: between)) (y :: after) =
        scanRows (checkRow (scanRows (s, []) (before ++ x :: between)) y) after := by
      unfold scanRows
      rw [List.foldl_cons]
    rw [hscan]
    constructor
    · apply hf2.effectsExtend.subset
      rw [hstep]
      simp
    · apply hf2.processingMono
      rw [hstep]
      rw [processRow_processingRows]
      exact (mem_setAdd _ _ _).mpr (Or.inr rfl)

/-- Witness for C9: a page showing a row without button followed by row B. -/
theorem scan_continues_past_row_without_control_witness :
    State.init.isProcessing = false ∧
    extractRowData rowNoButton = some recordNoButton ∧
    shouldTriggerNoAction recordNoButton.reason recordNoButton.attempts = true ∧
    recordNoButton.editButton = none ∧
    Effect.handed recordB ∈ (performRowCheck State.init [[rowNoButton, rowB]]).2 ∧
    recordB.trackingNumber ∈ (performRowCheck State.init [[rowNoButton, rowB]]).1.processingRows ∧
    recordNoButton.trackingNumber ∉
      (performRowCheck State.init [[rowNoButton, rowB]]).1.processingRows :=
  ⟨by decide, by decide, by decide, by decide,
    (scan_continues_past_row_without_control State.init [[rowNoButton, rowB]] [] [] []
      rowNoButton rowB recordNoButton recordB ⟨"Edit"⟩ (by decide) (by decide) (by decide)
      (by decide) (by decide) (by decide) (by decide) (by decide) (by decide) (by decide)
      (by simp)).2.2.2.1,
    (scan_continues_past_row_without_control State.init [[rowNoButton, rowB]] [] [] []
      rowNoButton rowB recordNoButton recordB ⟨"Edit"⟩ (by decide) (by decide) (by decide)
      (by decide) (by decide) (by decide) (by decide) (by decide) (by decide) (by decide)
      (by simp)).2.2.2.2,
    by decide⟩

/-- C2, evaluated on the two-row scenario: the first scan calls `processRow` for
A and for B and puts both identities in `processingRows`; only A's sequence
runs.  When it has finished, "B" is still in `processingRows`, and a new scan of
the same page selects nothing. -/
theorem two_row_scan_marks_both :
    State.init.isProcessing = false ∧
    extractRowData rowA = some recordA ∧ extractRowData rowB = some recordB ∧
    performRowCheck State.init [[rowA, rowB]] =
      (⟨[], ["A", "B"], true, none, [], 1, [⟨recordA, Stage.modalDelay⟩]⟩,
        [Effect.handed recordA, Effect.clickEdit "A", Effect.handed recordB]) ∧
    afterA = ⟨["A"], ["B"], false, none, [], 2, []⟩ ∧
    performRowCheck afterA [[rowA, rowB]] = (afterA, []) := by
  decide

/-- C3, evaluated: `T1` is in flight and has an Edit button; the dialog has no
option group, or one option, or a second option without radio input.
`processRow` clicks Edit, does not click Submit and ends with `isProcessing`
false, but "T1" is still in `processingRows`, and the next scan of the same
table selects nothing.  The same is seen on a run from the initial state. -/
theorem failed_no_selection_stays_inFlight :
    extractRowData rowT1 = some recordT1 ∧
    processRowOn markedT1 recordT1 [pageNoDialog [[rowT1]], pageNoDialog [[rowT1]]] =
      (markedT1, [Effect.clickEdit "T1"]) ∧
    processRowOn markedT1 recordT1 [pageOneOption [[rowT1]], pageOneOption [[rowT1]]] =
      (markedT1, [Effect.clickEdit "T1"]) ∧
    processRowOn markedT1 recordT1 [pageNoRadioInput [[rowT1]], pageNoRadioInput [[rowT1]]] =
      (markedT1, [Effect.clickEdit "T1"]) ∧
    markedT1.processingRows = ["T1"] ∧ markedT1.isProcessing = false ∧
    performRowCheck markedT1 [[rowT1]] = (markedT1, []) ∧
    run State.init noDialogEvents =
      (⟨[], ["T1"], false, none, [], 2, []⟩,
        [Effect.handed recordT1, Effect.clickEdit "T1"]) ∧
    performRowCheck (run State.init noDialogEvents).1 [[rowT1]] =
      ((run State.init noDialogEvents).1, []) := by
  decide

end LexRedelivery
